import Mathlib

/-
A shallow embedding of the tedi test framework (github.com/jstroem/tedi).

Embedded source files:
  * annotations/parser.go : the directive resolver (`Parse`, `parsePackage`,
    the three annotation regular expressions and `getParams`);
  * set.go      : `stringSet` with `Add`, `Has`, `Intersect`;
  * tedi.go     : the `Tedi` engine record, `Test`/`TestLabel`/`Run`;
  * test.go     : `wrapTest`, `createT`, `onStart`, `onEnd`, `T.BeforeTest`,
    `T.AfterTest`, `T.Run` (sub-tests);
  * fixture.go  : `Once` (the sync.Once memoization wrapper) and the
    container construction `createContainer`.

Modelling conventions:
  * Go strings are Lean `String`s; the three anchored regular expressions of
    parser.go are implemented as executable recognizers over `List Char`
    with the same semantics on their (very restricted) pattern language.
  * Go maps are modelled as insertion-ordered association lists.  Go map
    iteration order is unspecified and randomized at run time; where a claim
    depends on it (the `pkgs` and `pkg.Files` maps of `parsePackage`) the
    iteration order is exposed as the order of the input list.
  * The engine (test.go) is modelled as a fuel-indexed interpreter over
    small "scripts" standing for the reflective function values that tedi
    invokes through the dig container.  Observable behaviour is the trace of
    events: hook/body invocations, fixture provider executions, label reads.
    The success path is modelled (require.NoError never fires); dig's
    container is modelled as a per-container cache of constructor results,
    which is the documented dig behaviour tedi relies on.
-/

namespace TediModel

/-! ## Character classes of the Go regexp patterns (RE2):
    the patterns of parser.go only use literals, `\s`, `\w`, `(^|\n)`,
    `($|\n)` and the parameter-list group. -/

/-- Go regexp `\w` is `[0-9A-Za-z_]`. -/
def isWordChar (c : Char) : Bool := c.isAlphanum || c == '_'

/-- Go regexp `\s` is `[\t\n\f\r ]`. -/
def isSpaceChar (c : Char) : Bool :=
  c == ' ' || c == '\t' || c == '\n' || c == '\x0c' || c == '\r'

/-- Matches the pattern tail `\s*($|\n)`: we may consume whitespace and must
    then hit the end of the text or a newline (the newline may also be one of
    the consumed whitespace characters). -/
def trailOk : List Char → Bool
  | [] => true
  | c :: rest => if c == '\n' then true else if isSpaceChar c then trailOk rest else false

/-- All suffixes of the text that start right after a newline: the candidate
    starting points of the `(^|\n)` alternation (besides the full text). -/
def nlSuffixes : List Char → List (List Char)
  | [] => []
  | c :: rest => if c == '\n' then rest :: nlSuffixes rest else nlSuffixes rest

/-- Source `annotationRegexp` (parser.go line 50): `(^|\n)\s*<ann>\s*($|\n)`
    attempted at one starting point. -/
def matchPlainAt (ann cs : List Char) : Bool :=
  let cs1 := cs.dropWhile isSpaceChar
  ann.isPrefixOf cs1 && trailOk (cs1.drop ann.length)

/-- Source `annotationRegexp(ann).MatchString s`. -/
def matchPlain (ann s : String) : Bool :=
  (s.data :: nlSuffixes s.data).any (matchPlainAt ann.data)

/-- Greedy continuation of the parameter-list group `(?:,\s*\w+)*`, returning
    the consumed text (part of the capture) and the rest.  The fuel is the
    length of the input; the star can never iterate more often than that. -/
def paramsMore : Nat → List Char → List Char × List Char
  | 0, cs => ([], cs)
  | fuel + 1, cs =>
    match cs with
    | ',' :: rest =>
      let sp := rest.takeWhile isSpaceChar
      let rest1 := rest.dropWhile isSpaceChar
      let w := rest1.takeWhile isWordChar
      let rest2 := rest1.dropWhile isWordChar
      if w.isEmpty then ([], ',' :: rest)
      else
        let (more, rest3) := paramsMore fuel rest2
        (',' :: (sp ++ w ++ more), rest3)
    | other => ([], other)

/-- The capture group `(\w+(?:,\s*\w+)*)`: returns the captured raw text and
    the rest of the input, or `none` when the group cannot match here. -/
def paramsGroup (cs : List Char) : Option (List Char × List Char) :=
  let w1 := cs.takeWhile isWordChar
  let rest := cs.dropWhile isWordChar
  if w1.isEmpty then none
  else
    let (more, rest2) := paramsMore rest.length rest
    some (w1 ++ more, rest2)

/-- Source `annotationWithParamsRegexp` (parser.go line 54):
    `(?:^|\n)\s*<ann>\((\w+(?:,\s*\w+)*)\)\s*(?:$|\n)` attempted at one
    starting point; returns the capture. -/
def matchParamsAt (ann cs : List Char) : Option (List Char) :=
  let cs1 := cs.dropWhile isSpaceChar
  if ann.isPrefixOf cs1 then
    match cs1.drop ann.length with
    | '(' :: rest =>
      match paramsGroup rest with
      | some (cap, rest2) =>
        match rest2 with
        | ')' :: rest3 => if trailOk rest3 then some cap else none
        | _ => none
      | none => none
    | _ => none
  else none

/-- Source `annotationWithParamsRegexp(ann).FindStringSubmatch s` restricted to the
    capture (`none` = no match). -/
def matchParams (ann s : String) : Option String :=
  ((s.data :: nlSuffixes s.data).findSome? (matchParamsAt ann.data)).map String.mk

/-- Source `annotationWithOptionalParamsRegexp` (parser.go line 58):
    `(?:^|\n)\s*<ann>(?:\((\w+(?:,\s*\w+)*)\))?\s*(?:$|\n)` at one starting
    point; a match without the group yields the empty capture, exactly as
    Go reports a non-participating group as `""`. -/
def matchOptAt (ann cs : List Char) : Option (List Char) :=
  let cs1 := cs.dropWhile isSpaceChar
  if ann.isPrefixOf cs1 then
    let rest0 := cs1.drop ann.length
    let grp : Option (List Char) :=
      match rest0 with
      | '(' :: rest =>
        match paramsGroup rest with
        | some (cap, rest2) =>
          match rest2 with
          | ')' :: rest3 => if trailOk rest3 then some cap else none
          | _ => none
        | none => none
      | _ => none
    match grp with
    | some cap => some cap
    | none => if trailOk rest0 then some [] else none
  else none

/-- Source `annotationWithOptionalParamsRegexp(ann).FindStringSubmatch s` restricted
    to the capture. -/
def matchOpt (ann s : String) : Option String :=
  ((s.data :: nlSuffixes s.data).findSome? (matchOptAt ann.data)).map String.mk

/-- Source `strings.HasPrefix s pre` over the character lists. -/
def goHasPfx (s pre : String) : Bool := pre.data.isPrefixOf s.data

/-- Source `strings.HasSuffix s sfx` over the character lists. -/
def goHasSuffix (s sfx : String) : Bool := sfx.data.isSuffixOf s.data

/-- Source `strings.Split s ","` for the single-character separator. -/
def splitOnChar (c : Char) : List Char → List (List Char)
  | [] => [[]]
  | x :: rest =>
    let r := splitOnChar c rest
    if x == c then [] :: r
    else
      match r with
      | h :: t => (x :: h) :: t
      | [] => [[x]]

/-- Source `strings.TrimSpace(strings.TrimLeft(s, ","))` (parser.go line 70). -/
def goTrimChars (cs : List Char) : List Char :=
  (((cs.dropWhile (· == ',')).dropWhile isSpaceChar).reverse.dropWhile isSpaceChar).reverse

/-- Source `getParams` (parser.go lines 62-76), taking the `FindStringSubmatch`
    capture as input: `none` is Go's `ok = false` (no match at all); a match
    with empty capture is Go's `(nil, true)`; otherwise the capture is split
    on commas and trimmed. -/
def getParams (m : Option String) : Option (List String) :=
  match m with
  | none => none
  | some cap =>
    if cap.length > 0 then
      some ((splitOnChar ',' cap.data).map fun p => String.mk (goTrimChars p))
    else some []

/-! ## The annotation constants (parser.go lines 13-38). -/

def fixtureAnn : String := "@fixture"
def onceFixtureAnn : String := "@onceFixture"
def testAnn : String := "@test"
def beforeTestAnn : String := "@beforeTest"
def afterTestAnn : String := "@afterTest"
def testLabelAnn : String := "@testLabel"
def defaultTestLabelAnn : String := "@defaultTestLabel"
def defaultTestLabelName : String := "test"

/-! ## The parse result (parser.go lines 78-97) and `Parse`.
    A declared function is its name plus the text of its doc comment
    (`Function.Name`, `Function.Comment`); the go/ast `Package`/`Decl`
    plumbing carries no further information used by `Parse`. -/

structure FuncDecl where
  name : String
  doc : String
deriving DecidableEq, Repr

/-- One parsed file: its file name, its function declarations in source
    order, and the text of its comment groups in source order (go/ast file
    `Comments` includes the doc comments of the declarations). -/
structure PkgFile where
  fname : String
  decls : List FuncDecl
  comments : List String
deriving DecidableEq, Repr

structure ParseResult where
  defaultTestLabel : String := defaultTestLabelName
  testLabels : List (String × List String) := []
  fixtures : List String := []
  onceFixtures : List String := []
  tests : List (String × List String) := []
  beforeTests : List (String × List String) := []
  afterTests : List (String × List String) := []
  warnings : List String := []
deriving DecidableEq, Repr

/-- Association-list model of the Go map `TestLabels`. -/
def mapHas (m : List (String × List String)) (k : String) : Bool :=
  m.any fun kv => kv.1 == k

/-- Source `res.TestLabels[k] = append(res.TestLabels[k], vs...)`. -/
def mapAppend (m : List (String × List String)) (k : String) (vs : List String) :
    List (String × List String) :=
  if mapHas m k then m.map fun kv => if kv.1 == k then (kv.1, kv.2 ++ vs) else kv
  else m ++ [(k, vs)]

/-- Source `if _, ok := m[k]; !ok { m[k] = nil }`. -/
def mapEnsure (m : List (String × List String)) (k : String) : List (String × List String) :=
  if mapHas m k then m else m ++ [(k, [])]

/-- The file-scope comment pass of `Parse` (parser.go lines 111-142) for one
    comment.  The boolean component records whether the `@testLabel` branch
    executed `continue`, which skips the `@defaultTestLabel` check for this
    comment.  (The two "could not be parsed" warning branches are kept from
    the source although they are unreachable: `MatchString` and `getParams`
    use the same regular expression.) -/
def processComment (res : ParseResult) (cmt : String) : ParseResult :=
  let step1 : ParseResult × Bool :=
    if (matchParams testLabelAnn cmt).isSome then
      match getParams (matchParams testLabelAnn cmt) with
      | none =>
        ({ res with warnings :=
            res.warnings ++ ["@testLabel parameters could not be parsed " ++ cmt] }, true)
      | some params =>
        match params with
        | [] =>
          ({ res with warnings :=
              res.warnings ++ ["@testLabel must have one argument " ++ cmt] }, true)
        | label :: pfxs => ({ res with testLabels := mapAppend res.testLabels label pfxs }, false)
    else (res, false)
  if step1.2 then step1.1
  else
    let res1 := step1.1
    if (matchParams defaultTestLabelAnn cmt).isSome then
      match getParams (matchParams defaultTestLabelAnn cmt) with
      | none =>
        { res1 with warnings :=
            res1.warnings ++ ["@defaultTestLabel parameters could not be parsed " ++ cmt] }
      | some params =>
        if params.length > 1 then
          { res1 with warnings :=
              res1.warnings ++ ["@defaultTestLabel can only have one argument " ++ cmt] }
        else
          match params with
          | p :: _ => { res1 with defaultTestLabel := p }
          | [] => res1
    else res1

/-- The `parseLabels` closure of `Parse` (parser.go lines 149-165): reads the
    directive parameters from the doc comment, falls back to the default
    labels when there are none, and registers every explicitly named label
    in the label table. -/
def parseLabels (ann : String) (res : ParseResult) (doc : String)
    (defaultLabels : List String) : Option (List String) × ParseResult :=
  match getParams (matchOpt ann doc) with
  | none => (none, res)
  | some lbls =>
    if lbls.isEmpty then (some defaultLabels, res)
    else (some lbls, { res with testLabels := lbls.foldl mapEnsure res.testLabels })

def hasAnnPlain (ann doc : String) : Bool := matchPlain ann doc
def hasAnnOpt (ann doc : String) : Bool := (matchOpt ann doc).isSome

/-- The per-function classification of `Parse` (parser.go lines 167-218):
    the explicit-directive switch in its fixed order, then the auto-grouping
    loop over the label table's prefixes (plain `strings.HasPrefix`). -/
def classify (res : ParseResult) (fn : FuncDecl) : ParseResult :=
  if hasAnnOpt testAnn fn.doc then
    match parseLabels testAnn res fn.doc [res.defaultTestLabel] with
    | (some lbls, res1) => { res1 with tests := res1.tests ++ [(fn.name, lbls)] }
    | (none, res1) =>
      { res1 with warnings := res1.warnings ++ ["@test parameters could not be parsed " ++ fn.doc] }
  else if hasAnnPlain fixtureAnn fn.doc then
    { res with fixtures := res.fixtures ++ [fn.name] }
  else if hasAnnPlain onceFixtureAnn fn.doc then
    { res with onceFixtures := res.onceFixtures ++ [fn.name] }
  else if hasAnnOpt beforeTestAnn fn.doc then
    match parseLabels beforeTestAnn res fn.doc [res.defaultTestLabel] with
    | (some lbls, res1) => { res1 with beforeTests := res1.beforeTests ++ [(fn.name, lbls)] }
    | (none, res1) =>
      { res1 with warnings :=
          res1.warnings ++ ["@beforeTest parameters could not be parsed " ++ fn.doc] }
  else if hasAnnOpt afterTestAnn fn.doc then
    match parseLabels afterTestAnn res fn.doc [res.defaultTestLabel] with
    | (some lbls, res1) => { res1 with afterTests := res1.afterTests ++ [(fn.name, lbls)] }
    | (none, res1) =>
      { res1 with warnings :=
          res1.warnings ++ ["@afterTest parameters could not be parsed " ++ fn.doc] }
  else
    let autoLabels := res.testLabels.foldl
      (fun acc kv =>
        kv.2.foldl (fun acc2 pfx => if goHasPfx fn.name pfx then acc2 ++ [kv.1] else acc2) acc)
      []
    if autoLabels.isEmpty then res
    else { res with tests := res.tests ++ [(fn.name, autoLabels)] }

/-- Source `parsePackage` (parser.go lines 276-306): filters the directory's files
    (Go's parameter is called `filePrefix` but is matched with `HasSuffix`),
    then collects function declarations and comment-group texts.  Go walks
    the `pkgs` and `pkg.Files` maps, whose iteration order is unspecified:
    the order of the input list stands for one such iteration order. -/
def parsePackage (files : List PkgFile) (fileSuffix : String) :
    List FuncDecl × List String :=
  let fs := files.filter fun f => goHasSuffix f.fname fileSuffix
  (fs.foldl (fun acc f => acc ++ f.decls) [], fs.foldl (fun acc f => acc ++ f.comments) [])

/-- Source `Parse` (parser.go lines 99-221).  The `autoLabel` flag is part of the
    source signature; the source body never reads it. -/
def Parse (files : List PkgFile) (fileSuffix : String) (autoLabel : Bool) : ParseResult :=
  let fns := (parsePackage files fileSuffix).1
  let comments := (parsePackage files fileSuffix).2
  let res0 : ParseResult := {}
  let res1 := comments.foldl processComment res0
  let res2 :=
    if mapHas res1.testLabels res1.defaultTestLabel then res1
    else { res1 with testLabels := res1.testLabels ++ [(res1.defaultTestLabel, [])] }
  fns.foldl classify res2

/-! ## set.go: `stringSet`.
    A Go `map[string]struct{}` is modelled as its key list in insertion
    order (no duplicates are ever inserted by `Add`).  Go's map iteration
    order is unspecified; the claims below only use membership and
    cardinality, which do not depend on it. -/

/-- Source `stringSet.Add` (set.go lines 5-16). -/
def stringSetAdd (s : List String) (strs : List String) : List String :=
  strs.foldl (fun acc str => if acc.contains str then acc else acc ++ [str]) s

/-- Source `newStringSet` (set.go lines 18-22). -/
def newStringSet (strs : List String) : List String := stringSetAdd [] strs

/-- Source `stringSet.Has` (set.go lines 24-31). -/
def ssHas (s : List String) (x : String) : Bool := s.contains x

/-- Source `stringSet.Intersect` (set.go lines 45-58): returns nil when either set
    is empty, otherwise adds every key of `s` that `b` has. -/
def ssIntersect (s b : List String) : List String :=
  if s.isEmpty || b.isEmpty then []
  else s.foldl (fun acc k => if ssHas b k then stringSetAdd acc [k] else acc) []

/-! ## The execution engine (tedi.go, test.go, fixture.go).

    The reflective function values that tedi registers and invokes through
    the dig container are modelled as `FnDef`s: a list of parameter types
    (resolved by the container when the function is invoked) plus a
    `Script`, the body's interaction with the test handle `*T`:
    observable work (`event`), reading `t.Labels()` (`getLabels`),
    `t.BeforeTest`/`t.AfterTest`, and `t.Run` sub-tests. -/

inductive Script where
  | event (id : String)
  | getLabels
  | addBefore (ps : List String) (h : Script)
  | addAfter (ps : List String) (h : Script)
  | subRun (nm : String) (ps : List String) (body : Script)
  | seq (a b : Script)
  | skip
deriving DecidableEq, Repr

abbrev FnDef := List String × Script

/-- Observable events of a run: a hook or body making its observable call,
    a fixture provider body executing, the handle's label list being read. -/
inductive Ev where
  | call (id : String)
  | fixRun (typ : String)
  | labels (ls : List String)
deriving DecidableEq, Repr

/-- A registered fixture provider: the type it produces and the value it
    returns.  (Provider dependencies and the error paths of `Fixture` are
    not needed by the claims below.) -/
structure Fixture where
  resType : String
  value : Nat
deriving DecidableEq, Repr

/-- The `Tedi` engine record (tedi.go lines 20-29, the unnamed current
    version): requested run labels, declared labels, registered fixtures and
    engine-level hooks, plus the `testing.M` test list that `addTest`
    appends to (a registered test keeps its name, its matched labels and its
    function). -/
structure Tedi where
  runLabels : List String := []
  labels : List String := []
  fixtures : List Fixture := []
  beforeTests : List FnDef := []
  afterTests : List FnDef := []
  tests : List (String × List String × FnDef) := []
deriving DecidableEq, Repr

/-- The mutable state of one `*T` handle together with its dig container:
    the container's cache of resolved values, `running`, `testLabels`, and
    the handle's hook lists. -/
structure TState where
  cache : List (String × Nat)
  running : Bool
  testLabels : List String
  beforeTests : List FnDef
  afterTests : List FnDef
deriving DecidableEq, Repr

/-- Source `createContainer` + `createT` (fixture.go lines 138-155, test.go lines
    66-78): a fresh container (empty cache) and a fresh handle seeded with
    the engine's hook lists (`t.beforeTests[:]`, `t.afterTests[:]`) and the
    given labels, not yet running. -/
def createTState (td : Tedi) (lbls : List String) : TState :=
  { cache := [], running := false, testLabels := lbls,
    beforeTests := td.beforeTests, afterTests := td.afterTests }

/-- dig's per-container resolution of one parameter type: a cached value is
    reused; otherwise the matching provider's body runs (an observable
    `fixRun` event) and its value is cached in this container. -/
def resolveParam (fxs : List Fixture) (st : TState) (typ : String) : TState × List Ev :=
  if (st.cache.lookup typ).isSome then (st, [])
  else
    match fxs.find? (fun f => f.resType == typ) with
    | some f => ({ st with cache := st.cache ++ [(typ, f.value)] }, [Ev.fixRun typ])
    | none => (st, [])

def resolveParams (fxs : List Fixture) (st : TState) (ps : List String) : TState × List Ev :=
  ps.foldl (fun acc typ =>
    let r := resolveParam fxs acc.1 typ
    (r.1, acc.2 ++ r.2)) (st, [])

/-- A request to the engine interpreter (the four mutually recursive
    activities of test.go). -/
inductive Req where
  | fn (fd : FnDef)
  | script (s : Script)
  | hooks (l : List FnDef)
  | test (nm : String) (lbls : List String) (fd : FnDef)

/-- The four mutually recursive activities of test.go, folded into one
    fuel-indexed interpreter (the fuel only bounds recursion depth; every
    theorem below supplies enough of it):
    * `fn fd`     — `container.Invoke(fd)`: resolve the parameter types,
                    then run the body;
    * `script s`  — the body's interaction with the handle:
                    `addBefore` is `T.BeforeTest` (test.go lines 113-120:
                    invoke in place when running, else queue),
                    `addAfter` is `T.AfterTest` (lines 122-125: always
                    queue), `subRun` is `T.Run` (lines 128-130:
                    `t.tedi.wrapTest(name, fn, t.testLabels...)`);
    * `hooks l`   — the `onStart`/`onEnd` iteration (lines 95-111) over a
                    hook list captured at loop entry;
    * `test ...`  — the closure built by `wrapTest` (lines 37-48): fresh
                    container and handle, `onStart`, `running = true`, body,
                    deferred `onEnd` over the reverse of the then-current
                    after-hook list.  Its caller's state is untouched. -/
def run : Nat → Tedi → TState → Req → TState × List Ev
  | 0, _, st, _ => (st, [])
  | fuel + 1, td, st, Req.fn fd =>
    let r1 := resolveParams td.fixtures st fd.1
    let r2 := run fuel td r1.1 (Req.script fd.2)
    (r2.1, r1.2 ++ r2.2)
  | fuel + 1, td, st, Req.script s =>
    match s with
    | .event id => (st, [Ev.call id])
    | .getLabels => (st, [Ev.labels st.testLabels])
    | .skip => (st, [])
    | .seq a b =>
      let r1 := run fuel td st (Req.script a)
      let r2 := run fuel td r1.1 (Req.script b)
      (r2.1, r1.2 ++ r2.2)
    | .addBefore ps h =>
      if st.running then run fuel td st (Req.fn (ps, h))
      else ({ st with beforeTests := st.beforeTests ++ [(ps, h)] }, [])
    | .addAfter ps h => ({ st with afterTests := st.afterTests ++ [(ps, h)] }, [])
    | .subRun nm ps body =>
      (st, (run fuel td st (Req.test nm st.testLabels (ps, body))).2)
  | _ + 1, _, st, Req.hooks [] => (st, [])
  | fuel + 1, td, st, Req.hooks (fd :: rest) =>
    let r1 := run fuel td st (Req.fn fd)
    let r2 := run fuel td r1.1 (Req.hooks rest)
    (r2.1, r1.2 ++ r2.2)
  | fuel + 1, td, st, Req.test _ lbls fd =>
    let st0 := createTState td lbls
    let r1 := run fuel td st0 (Req.hooks st0.beforeTests)
    let st2 := { r1.1 with running := true }
    let r2 := run fuel td st2 (Req.fn fd)
    let e3 := (run fuel td r2.1 (Req.hooks r2.1.afterTests.reverse)).2
    (st, r1.2 ++ r2.2 ++ e3)

/-- The trace of the test closure `wrapTest(name, fn, labels...)` produces
    when the host runner calls it. -/
def wrapTestRun (fuel : Nat) (td : Tedi) (nm : String) (lbls : List String)
    (fd : FnDef) : List Ev :=
  (run fuel td (createTState td lbls) (Req.test nm lbls fd)).2

/-- Source `Tedi.Test` (test.go lines 13-23): intersect the test's labels with the
    engine's declared labels and the requested run labels; register the test
    only when the intersection is non-empty. -/
def Tedi.test (td : Tedi) (nm : String) (fd : FnDef) (lbls : List String) : Tedi :=
  let testsLabel := newStringSet lbls
  let matched := ssIntersect (ssIntersect testsLabel td.labels) td.runLabels
  if matched.length > 0 then { td with tests := td.tests ++ [(nm, matched, fd)] } else td

/-- Source `Tedi.TestLabel` (tedi.go lines 53-55). -/
def Tedi.testLabel (td : Tedi) (nm : String) : Tedi :=
  { td with labels := stringSetAdd td.labels [nm] }

/-- The warning condition of `Tedi.Run` (tedi.go lines 46-51, current
    version): the requested labels intersect none of the declared labels. -/
def Tedi.runWarns (td : Tedi) : Bool :=
  (ssIntersect td.runLabels td.labels).length == 0

/-- Source `Tedi.Run`: print the warning when `runWarns`, then `m.Run()` executes
    every registered test regardless.  Modelled as the pair of the warning
    flag and the traces of all registered tests. -/
def Tedi.runAll (td : Tedi) (fuel : Nat) : Bool × List (List Ev) :=
  (td.runWarns, td.tests.map fun t => wrapTestRun fuel td t.1 t.2.1 t.2.2)

/-! ## fixture.go: `Once`.
    `Once fn` builds a closure holding one `sync.Once` and one result slot
    `res`; each call runs the body through `o.Do` (storing `res` from the
    arguments of the very first call) and returns `res`.  `OnceFixture`
    registers `Once fn` once, so every container of the run calls the same
    closure: a run's resolutions of the fixture form one call sequence
    against the shared slot. -/

/-- The observable outcome of a sequence of calls of `Once fn` (fixture.go
    lines 120-136), starting from a given state of the memo slot: the list
    of returned results and the number of times the underlying body ran. -/
def onceCalls {α : Type} (fn : List α → List α) :
    List (List α) → Option (List α) → List (List α) × Nat
  | [], _ => ([], 0)
  | args :: rest, st =>
    match st with
    | some res =>
      let r := onceCalls fn rest (some res)
      (res :: r.1, r.2)
    | none =>
      let res := fn args
      let r := onceCalls fn rest (some res)
      (res :: r.1, r.2 + 1)

/-! ## Definitions taken from the specification's words, for comparison with
    the source-derived definitions above. -/

/-- Modelled from the spec: the prefix-match rule of §4.1 ("a name matches a
    prefix if the name starts with that prefix and either the name equals
    the prefix exactly, or the character immediately following the prefix is
    an underscore or an uppercase letter").  Used only to compare against
    the source's plain `strings.HasPrefix` auto-grouping. -/
def specPrefixMatches (nm pfx : String) : Bool :=
  goHasPfx nm pfx &&
    (nm == pfx ||
      (match nm.data.drop pfx.length with
       | c :: _ => c == '_' || c.isUpper
       | [] => false))

/-- Modelled from the spec: §4.3 says a sub-test's container/handle is
    "seeded with the parent's label set and hook list".  Used only to
    compare against the source's `createTState`, which seeds the hook lists
    from the engine, not from the parent handle. -/
def createTStateSpec (parent : TState) : TState :=
  { cache := [], running := false, testLabels := parent.testLabels,
    beforeTests := parent.beforeTests, afterTests := parent.afterTests }

/-! ## Helper lemmas about the set model. -/

theorem contains_iff_mem (l : List String) (a : String) : l.contains a = true ↔ a ∈ l := by
  simp [List.contains, List.elem_iff]

theorem mem_stringSetAdd (a : String) (l s : List String) :
    a ∈ stringSetAdd s l ↔ a ∈ s ∨ a ∈ l := by
  induction l generalizing s with
  | nil => simp [stringSetAdd]
  | cons x xs ih =>
    have hstep : stringSetAdd s (x :: xs)
        = stringSetAdd (if s.contains x then s else s ++ [x]) xs := rfl
    rw [hstep]
    by_cases hc : s.contains x = true
    · have hx : x ∈ s := (contains_iff_mem s x).mp hc
      rw [if_pos hc, ih]
      constructor
      · rintro (h | h)
        · exact Or.inl h
        · exact Or.inr (List.mem_cons_of_mem _ h)
      · rintro (h | h)
        · exact Or.inl h
        · rcases List.mem_cons.mp h with rfl | h2
          · exact Or.inl hx
          · exact Or.inr h2
    · rw [if_neg hc, ih]
      simp only [List.mem_append, List.mem_cons, List.mem_singleton]
      tauto

theorem mem_interFoldAux (b : List String) (s : List String) (init : List String) (a : String) :
    a ∈ s.foldl (fun acc k => if ssHas b k then stringSetAdd acc [k] else acc) init
      ↔ a ∈ init ∨ (a ∈ s ∧ a ∈ b) := by
  induction s generalizing init with
  | nil => simp
  | cons x xs ih =>
    rw [List.foldl_cons]
    by_cases hb : ssHas b x = true
    · have hxb : x ∈ b := (contains_iff_mem b x).mp hb
      rw [if_pos hb, ih, mem_stringSetAdd]
      simp only [List.mem_cons, List.not_mem_nil, or_false]
      constructor
      · rintro ((h | rfl) | ⟨h1, h2⟩)
        · exact Or.inl h
        · exact Or.inr ⟨Or.inl rfl, hxb⟩
        · exact Or.inr ⟨Or.inr h1, h2⟩
      · rintro (h | ⟨rfl | h1, h2⟩)
        · exact Or.inl (Or.inl h)
        · exact Or.inl (Or.inr rfl)
        · exact Or.inr ⟨h1, h2⟩
    · have hxb : x ∉ b := fun h => hb ((contains_iff_mem b x).mpr h)
      rw [if_neg hb, ih]
      simp only [List.mem_cons]
      constructor
      · rintro (h | ⟨h1, h2⟩)
        · exact Or.inl h
        · exact Or.inr ⟨Or.inr h1, h2⟩
      · rintro (h | ⟨rfl | h1, h2⟩)
        · exact Or.inl h
        · exact absurd h2 hxb
        · exact Or.inr ⟨h1, h2⟩

theorem mem_ssIntersect (a : String) (s b : List String) :
    a ∈ ssIntersect s b ↔ a ∈ s ∧ a ∈ b := by
  unfold ssIntersect
  by_cases h : s.isEmpty || b.isEmpty
  · rw [if_pos h]
    have : s = [] ∨ b = [] := by
      rcases Bool.or_eq_true_iff.mp h with h1 | h1
      · exact Or.inl (List.isEmpty_iff.mp h1)
      · exact Or.inr (List.isEmpty_iff.mp h1)
    rcases this with rfl | rfl <;> simp
  · rw [if_neg h, mem_interFoldAux]
    simp

/-- The memo slot already filled: no further body runs, every call returns
    the memoized results. -/
theorem onceCalls_filled {α : Type} (fn : List α → List α) (argss : List (List α))
    (res : List α) :
    onceCalls fn argss (some res) = (argss.map fun _ => res, 0) := by
  induction argss with
  | nil => rfl
  | cons a rest ih => simp [onceCalls, ih]

/-- A function without any annotation in its doc comment (here: an empty doc
    comment) always falls through the explicit-directive switch of `classify`
    into the auto-grouping loop.  Holds definitionally: the directive guards
    evaluate on the empty comment, independently of the name. -/
theorem classify_no_ann_auto (R : ParseResult) (nm : String) :
    classify R ⟨nm, ""⟩ =
      (let autoLabels := R.testLabels.foldl
          (fun acc kv => kv.2.foldl
            (fun acc2 pfx => if goHasPfx nm pfx then acc2 ++ [kv.1] else acc2) acc) []
       if autoLabels.isEmpty then R else { R with tests := R.tests ++ [(nm, autoLabels)] }) :=
  rfl

/-! ## The claims. -/

/-- C1: for a registered once-fixture, the underlying provider body executes
    at most once across the run: the first resolution invokes the body, and
    every later resolution (the calls all go through the single closure
    `Once fn` that `OnceFixture` registered, whatever container they come
    from) returns the same memoized result values without re-invoking the
    body.  For any run whose resolutions of the fixture are the call
    sequence `a :: rest`, the body runs exactly once and every call returns
    the first call's results; with no resolutions it runs zero times. -/
theorem once_fixture_body_at_most_once {α : Type} (fn : List α → List α)
    (a : List α) (rest : List (List α)) :
    (onceCalls fn (a :: rest) none).1 = (a :: rest).map (fun _ => fn a)
  ∧ (onceCalls fn (a :: rest) none).2 = 1
  ∧ (onceCalls fn [] none).2 = 0 := by
  refine ⟨?_, ?_, rfl⟩ <;> simp [onceCalls, onceCalls_filled]

/-- C2: with engine-level before-hooks registered in order [A, B] and
    after-hooks registered in order [X, Y], a test whose setup succeeds and
    whose body passes observes the call order A, B, body, Y, X: before-hooks
    in registration order before the body, after-hooks in reverse
    registration order after it (whatever the other engine state is). -/
theorem engine_hook_order (rl dl : List String) (fx : List Fixture)
    (ts : List (String × List String × FnDef)) (A B X Y b nm : String) (lbls : List String) :
    wrapTestRun 32
      { runLabels := rl, labels := dl, fixtures := fx,
        beforeTests := [([], .event A), ([], .event B)],
        afterTests := [([], .event X), ([], .event Y)], tests := ts }
      nm lbls ([], .event b)
    = [.call A, .call B, .call b, .call Y, .call X] := rfl

/-- C10: `Tedi.Test` with an empty label list never registers the test and
    touches nothing else of the engine (no error, no warning), because the
    empty set's intersection with any label set is empty. -/
theorem empty_label_test_never_registered (td : Tedi) (nm : String) (fd : FnDef) :
    Tedi.test td nm fd [] = td ∧ ∀ b : List String, ssIntersect [] b = [] :=
  ⟨rfl, fun _ => rfl⟩

/-- C4 (code bug): the resolver never assigns a hook role from a name
    prefix, and the auto-classification flag `autoLabel` passed to `Parse`
    has no effect at all.  (1) `Parse` produces identical output for any two
    values of the flag, on every input.  (2) With auto-classification
    enabled, the hook-prefix-named, directiveless functions `prePrint` and
    `fixtureRand` receive no registration of any kind.  (3) With the flag
    disabled, a function matching a declared label prefix is still
    registered as a test, not ignored.  The repository's own generated file
    examples/auto/tedi_test.go (with `t.BeforeTest(prePrint)` and fixture
    registrations for directiveless functions) documents the intended
    behaviour the claim describes. -/
theorem parse_ignores_autoLabel_and_assigns_no_hook_roles :
    (∀ (files : List PkgFile) (sfx : String) (a b : Bool), Parse files sfx a = Parse files sfx b)
  ∧ (Parse [⟨"a_test.go", [⟨"prePrint", ""⟩, ⟨"fixtureRand", ""⟩], []⟩] "_test.go" true).beforeTests
      = []
  ∧ (Parse [⟨"a_test.go", [⟨"prePrint", ""⟩, ⟨"fixtureRand", ""⟩], []⟩] "_test.go" true).afterTests
      = []
  ∧ (Parse [⟨"a_test.go", [⟨"prePrint", ""⟩, ⟨"fixtureRand", ""⟩], []⟩] "_test.go" true).fixtures
      = []
  ∧ (Parse [⟨"a_test.go", [⟨"integration_simple", ""⟩],
        ["@testLabel(integration, integration_)\n"]⟩] "_test.go" false).tests
      = [("integration_simple", ["integration"])] :=
  ⟨fun _ _ _ _ => rfl, rfl, rfl, rfl, rfl⟩

/-- C5 counterexample: the claim's boundary rule is false on the code.  With
    the prefix `test` declared for label `x`, the directiveless function
    `testimony` IS auto-registered as a test carrying `x` (the code uses
    plain `strings.HasPrefix`), while the spec's prefix-match rule says
    `testimony` must not match `test`. -/
theorem prefix_match_boundary_refuted :
    (Parse [⟨"a_test.go", [⟨"testimony", ""⟩], ["@testLabel(x, test)\n"]⟩] "_test.go" true).tests
      = [("testimony", ["x"])]
  ∧ specPrefixMatches "testimony" "test" = false :=
  ⟨rfl, rfl⟩

/-- C5 as amended: during auto-classification a name matches a label prefix
    iff the name merely starts with that prefix (plain `strings.HasPrefix`,
    no word-boundary requirement): with prefix `test` declared for label
    `x`, a directiveless function named `nm` is registered (as a test with
    label `x`) iff `nm` starts with `test` — so `testimony` does match. -/
theorem prefix_match_is_plain (nm : String) :
    ((Parse [⟨"a_test.go", [⟨nm, ""⟩], ["@testLabel(x, test)\n"]⟩] "_test.go" true).tests ≠ [])
      ↔ goHasPfx nm "test" = true := by
  have h1 : Parse [⟨"a_test.go", [⟨nm, ""⟩], ["@testLabel(x, test)\n"]⟩] "_test.go" true
      = classify { testLabels := [("x", ["test"]), ("test", [])] } ⟨nm, ""⟩ := rfl
  rw [h1, classify_no_ann_auto]
  cases hsw : goHasPfx nm "test" with
  | false => simp [List.foldl, hsw]
  | true => simp [List.foldl, hsw]

/-- C8 (code bug): the registration lists `Parse` produces depend on the
    iteration order of the `pkg.Files` map in `parsePackage`, which Go
    randomizes per run — so parsing the same unchanged two-file package
    twice need not give byte-identical lists.  The two orders of the same
    two files yield different results: the two `@test` functions appear in
    opposite orders. -/
theorem parse_output_depends_on_map_iteration_order :
    Parse [⟨"a_test.go", [⟨"FnA", "@test\n"⟩], ["@test\n"]⟩,
           ⟨"b_test.go", [⟨"FnB", "@test\n"⟩], ["@test\n"]⟩] "_test.go" true
      ≠ Parse [⟨"b_test.go", [⟨"FnB", "@test\n"⟩], ["@test\n"]⟩,
               ⟨"a_test.go", [⟨"FnA", "@test\n"⟩], ["@test\n"]⟩] "_test.go" true
  ∧ (Parse [⟨"a_test.go", [⟨"FnA", "@test\n"⟩], ["@test\n"]⟩,
            ⟨"b_test.go", [⟨"FnB", "@test\n"⟩], ["@test\n"]⟩] "_test.go" true).tests
      = [("FnA", ["test"]), ("FnB", ["test"])]
  ∧ (Parse [⟨"b_test.go", [⟨"FnB", "@test\n"⟩], ["@test\n"]⟩,
            ⟨"a_test.go", [⟨"FnA", "@test\n"⟩], ["@test\n"]⟩] "_test.go" true).tests
      = [("FnB", ["test"]), ("FnA", ["test"])] :=
  ⟨by decide, rfl, rfl⟩

/-- C9 counterexample: an `@testLabel` / `@defaultTestLabel` occurrence with
    an empty parameter list produces NO warning (and no registration): the
    warning list stays empty, the label table holds only the implicit
    default, and the default label is unchanged — the claim's "a warning is
    appended" is false. -/
theorem empty_params_no_warning :
    (Parse [⟨"a_test.go", [], ["@testLabel()\n", "@defaultTestLabel()\n"]⟩] "_test.go" true).warnings
      = []
  ∧ (Parse [⟨"a_test.go", [], ["@testLabel()\n", "@defaultTestLabel()\n"]⟩] "_test.go" true).testLabels
      = [("test", [])]
  ∧ (Parse [⟨"a_test.go", [], ["@testLabel()\n", "@defaultTestLabel()\n"]⟩] "_test.go"
        true).defaultTestLabel
      = "test" :=
  ⟨rfl, rfl, rfl⟩

/-- C9 as amended: for both parameter-requiring annotation kinds, an
    occurrence with an empty parameter list fails to match the annotation
    pattern at all (the parameter group requires at least one word
    character), so the occurrence is skipped silently — it is not treated
    as an annotation with no parameters, and parsing is exactly as if the
    comment were absent: no registration and no warning. -/
theorem empty_params_silently_skipped :
    matchParams testLabelAnn "@testLabel()\n" = none
  ∧ matchParams defaultTestLabelAnn "@defaultTestLabel()\n" = none
  ∧ Parse [⟨"a_test.go", [], ["@testLabel()\n", "@defaultTestLabel()\n"]⟩] "_test.go" true
      = Parse [⟨"a_test.go", [], []⟩] "_test.go" true :=
  ⟨rfl, rfl, rfl⟩

/-- C3: a registered test is added to the run iff the intersection of its
    own labels, the engine's declared labels and the run's requested labels
    is non-empty (otherwise `Test` leaves the engine untouched); and `Run`
    emits its non-fatal warning iff the requested labels intersect none of
    the declared labels, while still executing every registered test. -/
theorem label_filtering_and_zero_match_warning (td : Tedi) (nm : String) (fd : FnDef)
    (lbls : List String) (fuel : Nat) :
    ((Tedi.test td nm fd lbls).tests.length = td.tests.length + 1
        ↔ ∃ l, l ∈ lbls ∧ l ∈ td.labels ∧ l ∈ td.runLabels)
  ∧ (Tedi.test td nm fd lbls = td
        ↔ ¬∃ l, l ∈ lbls ∧ l ∈ td.labels ∧ l ∈ td.runLabels)
  ∧ ((td.runAll fuel).1 = true ↔ ∀ l ∈ td.runLabels, l ∉ td.labels)
  ∧ (td.runAll fuel).2.length = td.tests.length := by
  have hmem : ∀ a, a ∈ ssIntersect (ssIntersect (newStringSet lbls) td.labels) td.runLabels
      ↔ a ∈ lbls ∧ a ∈ td.labels ∧ a ∈ td.runLabels := by
    intro a
    rw [mem_ssIntersect, mem_ssIntersect]
    unfold newStringSet
    rw [mem_stringSetAdd]
    simp only [List.not_mem_nil, false_or]
    tauto
  have hwarn : (td.runAll fuel).1 = true ↔ ∀ l ∈ td.runLabels, l ∉ td.labels := by
    show ((ssIntersect td.runLabels td.labels).length == 0) = true ↔ _
    rw [beq_iff_eq]
    constructor
    · intro h l hl hlb
      have hm : l ∈ ssIntersect td.runLabels td.labels := (mem_ssIntersect l _ _).mpr ⟨hl, hlb⟩
      have := List.length_pos_of_mem hm
      omega
    · intro h
      rw [List.length_eq_zero, List.eq_nil_iff_forall_not_mem]
      intro a ha
      rw [mem_ssIntersect] at ha
      exact h a ha.1 ha.2
  have hrun : (td.runAll fuel).2.length = td.tests.length := by
    simp [Tedi.runAll]
  have htest : Tedi.test td nm fd lbls =
      (if 0 < (ssIntersect (ssIntersect (newStringSet lbls) td.labels) td.runLabels).length then
        { td with tests := td.tests ++
            [(nm, ssIntersect (ssIntersect (newStringSet lbls) td.labels) td.runLabels, fd)] }
      else td) := rfl
  by_cases hpos :
      0 < (ssIntersect (ssIntersect (newStringSet lbls) td.labels) td.runLabels).length
  · have hex : ∃ l, l ∈ lbls ∧ l ∈ td.labels ∧ l ∈ td.runLabels := by
      obtain ⟨a, ha⟩ := List.exists_mem_of_ne_nil _ (List.length_pos.mp hpos)
      exact ⟨a, (hmem a).mp ha⟩
    refine ⟨iff_of_true ?_ hex, iff_of_false ?_ (fun hc => hc hex), hwarn, hrun⟩
    · rw [htest, if_pos hpos]
      simp
    · rw [htest, if_pos hpos]
      intro heq
      have hlen := congrArg (fun t => t.tests.length) heq
      simp at hlen
  · have hnex : ¬∃ l, l ∈ lbls ∧ l ∈ td.labels ∧ l ∈ td.runLabels := by
      rintro ⟨l, h1, h2, h3⟩
      exact hpos (List.length_pos_of_mem ((hmem l).mpr ⟨h1, h2, h3⟩))
    refine ⟨iff_of_false ?_ hnex, iff_of_true ?_ hnex, hwarn, hrun⟩
    · rw [htest, if_neg hpos]
      simp
    · rw [htest, if_neg hpos]

/-- C6 counterexample: the claim says a sub-test's fresh container/handle is
    seeded with the PARENT's hook list; the code seeds it from the ENGINE's
    registered hook lists (`wrapTest` calls `createContainer`/`createT` on
    `t.tedi`).  With an engine holding no after-hooks and a parent handle
    that added one at run time, the state the code seeds differs from the
    state the spec describes. -/
theorem subtest_hook_seed_refuted :
    createTState ({} : Tedi) (TState.mk [] true ["L"] [] [([], Script.event "H")]).testLabels
      ≠ createTStateSpec (TState.mk [] true ["L"] [] [([], Script.event "H")]) := by
  decide

/-- C6 as amended: `Run(name, fn)` on the active handle starts a sub-test
    with a NEW container whose fixture cache is independent (the provider of
    type W runs again inside the sub-test although the parent had already
    resolved and cached it), seeded with the parent's label set (`labels pl`
    is observed inside the sub-test) and with the ENGINE's registered hook
    lists — not the parent's: the after-hook the parent added at run time
    does not run inside the sub-test, only at the parent's own teardown —
    and the sub-test's body goes through the same before/body/after
    pipeline. -/
theorem subtest_container_and_seeding (v : Nat) (hId subId : String) (pl : List String)
    (nm snm : String) :
    wrapTestRun 32 { fixtures := [⟨"W", v⟩] } nm pl
      (["W"], .seq (.addAfter [] (.event hId)) (.subRun snm ["W"] (.seq .getLabels (.event subId))))
    = [.fixRun "W", .fixRun "W", .labels pl, .call subId, .call hId] := rfl

/-- C7 counterexample: a hook added through the handle's `AfterTest` while
    the test is running is NOT invoked immediately in place — it produces no
    event at the point of the call and is appended to the handle's after-hook
    queue instead (only `BeforeTest` invokes in place). -/
theorem afterTest_queued_not_in_place :
    (run 32 ({} : Tedi) ⟨[], true, [], [], []⟩ (.script (.addAfter [] (.event "H")))).2 = []
  ∧ (run 32 ({} : Tedi) ⟨[], true, [], [], []⟩ (.script (.addAfter [] (.event "H")))).1.afterTests
      = [([], Script.event "H")]
  ∧ (run 32 ({} : Tedi) ⟨[], true, [], [], []⟩ (.script (.addBefore [] (.event "H")))).2
      = [Ev.call "H"] := by
  refine ⟨rfl, rfl, rfl⟩

/-- C7 as amended: a hook added through the handle while the test is already
    running is not deferred to a future test, but the two calls behave
    differently: `BeforeTest` invokes the hook immediately in place, while
    `AfterTest` appends it to the current test's after-hook list, so it runs
    during the current test's teardown (after the rest of the body), not at
    the point of the call. -/
theorem hook_added_while_running (fuel : Nat) (td : Tedi) (st : TState) (ps : List String)
    (h : Script) (hId midId : String) :
    (st.running = true →
      run (fuel + 1) td st (.script (.addBefore ps h)) = run fuel td st (.fn (ps, h)))
  ∧ wrapTestRun 32 ({} : Tedi) "t" [] ([], .seq (.addAfter [] (.event hId)) (.event midId))
      = [.call midId, .call hId] := by
  constructor
  · intro hr
    obtain ⟨c, r, tl, bt, af⟩ := st
    cases r with
    | false => exact absurd hr (by simp)
    | true => rfl
  · rfl

/-- Witness for `hook_added_while_running`: at a concrete running handle,
    `BeforeTest` invokes the added hook in place. -/
theorem hook_added_while_running_witness :
    run (5 + 1) ({} : Tedi) ⟨[], true, [], [], []⟩ (.script (.addBefore [] (.event "E")))
      = run 5 ({} : Tedi) ⟨[], true, [], [], []⟩ (.fn ([], .event "E")) :=
  (hook_added_while_running 5 {} ⟨[], true, [], [], []⟩ [] (.event "E") "a" "b").1 rfl

end TediModel
